import Mathlib

/-!
Verification of the ownCloud/SharePoint mirroring tool.

This file gives a shallow embedding, in Lean, of the core algorithms of the
repository (the persistent retry store `DownloadState`, the destination
resolver `move_file_to_directory`, the download-completion monitor
`monitor_download`, the traversal `scan_directory`, the per-item retry
wrapper `download_and_monitor_with_retry` and the pass loop of `main`),
and proves or refutes the stated properties of the specification.

Conventions of the embedding:
* filesystem paths are lists of path components (`List String`); `os.path.join`
  becomes list append, `os.path.dirname` becomes `List.dropLast`;
* a local filesystem is a function from path to `Option Nat` (the size of the
  regular file at that path, `none` when absent) or, where only existence
  matters, to `Bool`;
* Python code that may raise but catches every exception internally is
  modelled as a function into `Except Unit _` that provably always returns
  `Except.ok`;
* real time, sleeping and Selenium interaction are abstracted away: the
  completion monitor consumes a scripted sequence of observed sizes, and
  downloads are decided by an oracle function.
-/

namespace OwncloudMirror

/-! ## Persistent retry store (`DownloadState`, sharepoint_download.py lines 46-105)

The store keeps `failed_files`, a list of records with fields
`name`, `path`, `retries`, and persists them to `.download_state.json`.
-/

/-- One record of the `failed_files` list: identity is `(name, path)`,
`retries` counts recorded failures. -/
structure Entry where
  name : String
  path : String
  retries : Nat
deriving DecidableEq, Repr

/-- The retry store: the in-memory `failed_files` list together with the
content of the on-disk state file (`none` = file absent, `some l` = file
holds the serialized entries `l`; the `last_updated` timestamp carries no
information used by the program and is omitted). -/
structure DState where
  failed_files : List Entry
  disk : Option (List Entry)
deriving DecidableEq, Repr

/-- Models `DownloadState.save_state`: write `failed_files` to the state
file.  The argument `writeOk` says whether the underlying file write
succeeds.  The source wraps the write in try/except and only logs a warning
on failure, so the function returns `Except.ok` in both cases (an uncaught
exception would be `Except.error`); on a failed write the disk is left as
it was. -/
def save_state (writeOk : Bool) (s : DState) : Except Unit DState :=
  if writeOk then Except.ok { s with disk := some s.failed_files }
  else Except.ok s

/-- The mutation step of `DownloadState.add_failed`: walk `failed_files`
and increment `retries` of the first entry whose `name` and `path` both
match, returning `none` when no entry matches (the source then appends a
fresh entry). -/
def bumpRetries (l : List Entry) (n p : String) : Option (List Entry) :=
  match l with
  | [] => none
  | e :: rest =>
    if e.name = n ∧ e.path = p then
      some ({ e with retries := e.retries + 1 } :: rest)
    else
      (bumpRetries rest n p).map (fun r => e :: r)

/-- Models `DownloadState.add_failed`: increment the first matching entry,
or append a new entry with `retries = 1`; in both cases immediately call
`save_state`. -/
def add_failed (writeOk : Bool) (s : DState) (n p : String) : Except Unit DState :=
  match bumpRetries s.failed_files n p with
  | some l => save_state writeOk { s with failed_files := l }
  | none => save_state writeOk { s with failed_files := s.failed_files ++ [⟨n, p, 1⟩] }

/-- Models `DownloadState.mark_success`: drop every entry whose `name` and
`path` both match, then immediately call `save_state`. -/
def mark_success (writeOk : Bool) (s : DState) (n p : String) : Except Unit DState :=
  save_state writeOk
    { s with failed_files :=
        s.failed_files.filter (fun f => ¬ (f.name = n ∧ f.path = p)) }

/-- Models `DownloadState.get_failed_files`: the entries still eligible for
automatic retry, namely those with `retries < maxRetries`
(`config.SHAREPOINT_MAX_RETRIES`, default 10).  A pure query: it builds a
new list and does not touch the store. -/
def get_failed_files (maxRetries : Nat) (s : DState) : List Entry :=
  s.failed_files.filter (fun f => f.retries < maxRetries)

/-- Models `DownloadState.clear_state`: empty the in-memory list and delete
the state file. -/
def clear_state (_s : DState) : DState :=
  { failed_files := [], disk := none }

/-- The possible contents of the persisted state file as seen by
`DownloadState.load_state`:
* `absent` : `os.path.exists` is false;
* `unreadable` : the file exists but opening, reading or JSON-parsing it
  raises;
* `parsed f` : valid JSON; `f = some l` when the `failed_files` key is
  present with entries `l`, `f = none` when the key is missing
  (`data.get` then supplies the default `[]`). -/
inductive StateFileContent where
  | absent
  | unreadable
  | parsed (failed : Option (List Entry))
deriving DecidableEq

/-- Models `DownloadState.load_state` (together with the `failed_files = []`
initialisation in `DownloadState.__init__`): produce the in-memory list from
the state-file content.  The parse error is caught (a warning is logged) and
the list stays empty, so the result is always `Except.ok`. -/
def load_state (c : StateFileContent) : Except Unit (List Entry) :=
  match c with
  | .absent => Except.ok []
  | .unreadable => Except.ok []
  | .parsed f => Except.ok (f.getD [])

/-! ## Destination resolution (`move_file_to_directory`, main.py lines 679-712,
ported to sharepoint_download.py lines 535-569)

Paths are component lists; the download landing directory is
`config.DOWNLOAD_DIR` (default `./downloads`).  A filesystem maps a path to
the size of the regular file there, or `none`.
-/

/-- A filesystem path as its list of components; `os.path.join` is append. -/
abbrev FPath := List String

/-- `config.DOWNLOAD_DIR`, the landing directory of the Chrome downloader and
root of the local mirror. -/
def DOWNLOAD_DIR : FPath := ["downloads"]

/-- `os.remove`: the path no longer holds a file. -/
def fsRemove (fs : FPath → Option Nat) (p : FPath) : FPath → Option Nat :=
  fun q => if q = p then none else fs q

/-- `os.rename src dst`: the file leaves `src` and appears at `dst`
(overwriting whatever was at `dst`). -/
def fsRename (fs : FPath → Option Nat) (src dst : FPath) : FPath → Option Nat :=
  fun q => if q = dst then fs src else if q = src then none else fs q

/-- Split a character list at its last dot: `some (before, after)` where
`after` starts with the last `.` of the list, `none` when there is no dot. -/
def splitLastDot : List Char → Option (List Char × List Char)
  | [] => none
  | c :: cs =>
    match splitLastDot cs with
    | some (b, a) => some (c :: b, a)
    | none => if c = '.' then some ([], c :: cs) else none

/-- Models `os.path.splitext` on a bare file name (no separators): split off
the extension at the last dot, except when every character before that dot is
itself a dot (then the name has no extension, e.g. `.bashrc`). -/
def splitext (s : String) : String × String :=
  match splitLastDot s.data with
  | none => (s, "")
  | some (b, a) =>
    if b.any (fun c => c ≠ '.') then (String.mk b, String.mk a) else (s, "")

/-- Models `move_file_to_directory source_path filename target_dir` of
main.py: compute the destination `DOWNLOAD_DIR/target_dir/filename`; when a
file of that name exists with the same size as the source, delete the source;
when it exists with a different size, append `_<timestamp>` to the stem of
`filename` and move the source there; otherwise move the source to the
destination.  `ts` is `int(time.time())`.  When the source path does not
exist, `os.path.getsize` or `os.rename` raises, the handler catches it, and
the result is `false` with the filesystem unchanged. -/
def move_file_to_directory (fs : FPath → Option Nat) (source_path : FPath)
    (filename : String) (target_dir : FPath) (ts : Nat) :
    (FPath → Option Nat) × Bool :=
  let dest_path : FPath := DOWNLOAD_DIR ++ target_dir ++ [filename]
  match fs dest_path with
  | some destSize =>
    match fs source_path with
    | none => (fs, false)
    | some srcSize =>
      if srcSize = destSize then
        (fsRemove fs source_path, true)
      else
        let stemExt := splitext filename
        let renamed : FPath :=
          dest_path.dropLast ++ [stemExt.1 ++ "_" ++ toString ts ++ stemExt.2]
        (fsRename fs source_path renamed, true)
  | none =>
    match fs source_path with
    | none => (fs, false)
    | some _ => (fsRename fs source_path dest_path, true)

/-! ## Completion monitor (`monitor_download`, main.py lines 604-676,
sharepoint_download.py lines 462-533)

While a `.crdownload` artifact is present the loop samples its size every
poll; `stable_count` increments when the size equals `last_size` and resets
to 0 otherwise; once `stable_count` reaches 3 the loop sleeps one extra
confirmation interval and re-reads the size, finalizing (stripping the
suffix and relocating) only when that re-read gives the same size again.
The embedding scripts the observations: each loop iteration is given the
polled size and the size a confirmation re-read would produce.
-/

/-- The monitor's loop state: `last_size` and `stable_count` of
`monitor_download` (both start at 0). -/
structure MonState where
  last_size : Nat
  stable_count : Nat
deriving DecidableEq, Repr

/-- One iteration of the `monitor_download` polling loop over the in-progress
artifact: `poll` is the size `os.path.getsize` returns at this poll, `recheck`
the size a confirmation re-read (after the extra 2-second sleep) would return;
the re-read only happens when the incremented `stable_count` has reached 3.
`none` means the artifact was declared stable and the monitor proceeds to
strip the suffix and relocate; `some st` is the state carried into the next
poll. -/
def monitor_step (st : MonState) (poll recheck : Nat) : Option MonState :=
  if poll = st.last_size then
    if st.stable_count + 1 ≥ 3 then
      if recheck = poll then none
      else some ⟨st.last_size, st.stable_count + 1⟩
    else some ⟨st.last_size, st.stable_count + 1⟩
  else some ⟨poll, 0⟩

/-- The `monitor_download` polling loop run over a finite script of
observations (`poll`, `recheck`) for the in-progress artifact: `true` when
some iteration declares the artifact stable, `false` when the script (the
per-file timeout budget) is exhausted first. -/
def monitor_run (st : MonState) : List (Nat × Nat) → Bool
  | [] => false
  | (p, r) :: rest =>
    match monitor_step st p r with
    | none => true
    | some st1 => monitor_run st1 rest

/-! ## Tree traversal (`scan_directory`, main.py lines 361-496)

The remote tree is a value: a listing is a list of named items, each a file
or a folder with its own listing.  The local mirror is abstracted to the one
observation the traversal makes of it, `os.path.exists ∧ os.path.isfile` at
the resolved destination path, so a filesystem is `FPath → Bool`.  Whether a
triggered download (with its retry wrapper) eventually succeeds is decided
by an oracle on the destination path; a successful download ends with the
file at its resolved destination. -/

/-- One item of a remote listing: a file, or a folder with its children. -/
inductive RTree where
  | file (name : String)
  | dir (name : String) (children : List RTree)

/-- The file names of a listing, in listing order (the traversal processes
these before entering any folder). -/
def fileNames : List RTree → List String
  | [] => []
  | .file n :: rest => n :: fileNames rest
  | .dir _ _ :: rest => fileNames rest

/-- Statistics of one pass, `download_stats` of main.py. -/
structure DownStats where
  total_files : Nat
  existing_files : Nat
  downloaded : Nat
  failed : Nat
deriving DecidableEq, Repr

/-- A successful download leaves the file at its destination path. -/
def setFile (fs : FPath → Bool) (p : FPath) : FPath → Bool :=
  fun q => if q = p then true else fs q

/-- The file phase of `scan_directory`: for each file of the current listing,
count it in `total_files`; when a regular file already exists at the resolved
destination `path ++ [n]`, count it in `existing_files` and skip it;
otherwise trigger the download: on success the file appears at the
destination and `downloaded` is counted, on failure `failed` is counted (and
the item joins the in-memory failure list, tracked here only through the
`failed` counter). -/
def processFiles (dl : FPath → Bool) :
    (FPath → Bool) → DownStats → FPath → List String → (FPath → Bool) × DownStats
  | fs, st, _, [] => (fs, st)
  | fs, st, path, n :: ns =>
    let dest : FPath := path ++ [n]
    let st1 := { st with total_files := st.total_files + 1 }
    if fs dest then
      processFiles dl fs { st1 with existing_files := st1.existing_files + 1 } path ns
    else if dl dest then
      processFiles dl (setFile fs dest) { st1 with downloaded := st1.downloaded + 1 } path ns
    else
      processFiles dl fs { st1 with failed := st1.failed + 1 } path ns

/-- The folder phase of `scan_directory`: walk the current listing in order,
skip files (they were handled by the file phase), and for each folder enter
it, process its files, recurse into its sub-folders, and navigate back. -/
def scanSubdirs (dl : FPath → Bool) :
    (FPath → Bool) × DownStats → FPath → List RTree → (FPath → Bool) × DownStats
  | acc, _, [] => acc
  | acc, path, .file _ :: rest => scanSubdirs dl acc path rest
  | (fs, st), path, .dir n cs :: rest =>
    scanSubdirs dl
      (scanSubdirs dl (processFiles dl fs st (path ++ [n]) (fileNames cs))
        (path ++ [n]) cs)
      path rest

/-- Models `scan_directory driver` invoked at the root: process the root
listing's files, then recurse depth-first through its folders, threading the
local filesystem and the statistics. -/
def scan_directory (dl : FPath → Bool) (fs : FPath → Bool) (st : DownStats)
    (rootListing : List RTree) : (FPath → Bool) × DownStats :=
  scanSubdirs dl (processFiles dl fs st [] (fileNames rootListing)) [] rootListing

/-- The destination paths of all files strictly inside the folders of a
listing rooted at `path` (the file phase of each visited folder handles
these). -/
def subtreeFilePaths : FPath → List RTree → List FPath
  | _, [] => []
  | path, .file _ :: rest => subtreeFilePaths path rest
  | path, .dir n cs :: rest =>
    ((fileNames cs).map (fun m => (path ++ [n]) ++ [m])
        ++ subtreeFilePaths (path ++ [n]) cs)
      ++ subtreeFilePaths path rest

/-- The destination paths of every file of the tree below `path`, in
traversal order: the listing's own files first, then the files inside its
folders. -/
def treeFilePaths (path : FPath) (l : List RTree) : List FPath :=
  (fileNames l).map (fun n => path ++ [n]) ++ subtreeFilePaths path l

/-! ## Per-item retry wrapper and pass loop
(`download_and_monitor_with_retry` main.py lines 564-601, `retry_download`
lines 1286-1322, `main` lines 1325-1458) -/

/-- The attempt loop inside `download_and_monitor_with_retry` (and,
identically, `retry_download`): up to `fuel` attempts, numbered from `i`;
each loop iteration triggers the download once and asks the oracle whether
trigger + monitor succeeded.  Returns how many attempts were made and
whether one succeeded. -/
def attemptLoop (dl : Nat → Bool) : Nat → Nat → Nat × Bool
  | 0, _ => (0, false)
  | fuel + 1, i =>
    if dl i then (1, true)
    else
      let r := attemptLoop dl fuel (i + 1)
      (r.1 + 1, r.2)

/-- Models `download_and_monitor_with_retry` as observed through its attempt
count: up to `maxRetries` (`config.MAX_RETRIES`, default 10) attempts for one
item, stopping at the first success. -/
def download_and_monitor_with_retry (dl : Nat → Bool) (maxRetries : Nat) : Nat × Bool :=
  attemptLoop dl maxRetries 0

/-- How often one file item is attempted during a single full cycle of
main.py's `main`: not at all when the file is already present; otherwise the
scan phase runs `download_and_monitor_with_retry` (oracle `dl1`), and when
that fails the item joins `failed_files` and the retry phase runs
`retry_download` (oracle `dl2`), each making up to `maxRetries` attempts. -/
def cycleAttemptsForItem (present : Bool) (dl1 dl2 : Nat → Bool) (maxRetries : Nat) : Nat :=
  if present then 0
  else
    let r1 := download_and_monitor_with_retry dl1 maxRetries
    if r1.2 then r1.1
    else r1.1 + (attemptLoop dl2 maxRetries 0).1

/-- What the end of one cycle of main.py's `main` reports for the pass:
the length of `failed_files` after the retry phase, and
`download_stats.downloaded` of the pass. -/
structure PassResult where
  failedAfterRetry : Nat
  downloaded : Nat
deriving DecidableEq, Repr

/-- The cycle loop of main.py's `main` (lines 1360-1439): passes are numbered
from 1; after pass `i` the loop stops successfully (returning `some i`) when
the failure list is empty and the pass downloaded nothing new; otherwise it
waits and starts the next pass, returning `none` when the `MAX_FULL_CYCLES`
budget (`fuel`) runs out. -/
def owncloudLoop (passes : Nat → PassResult) : Nat → Nat → Option Nat
  | 0, _ => none
  | fuel + 1, i =>
    let r := passes i
    if r.failedAfterRetry = 0 ∧ r.downloaded = 0 then some i
    else owncloudLoop passes fuel (i + 1)

/-- Models the entry of main.py's `main`: when login fails the run aborts at
once (`none`); otherwise the cycle loop runs with the full budget
(`config.MAX_FULL_CYCLES`) starting at pass 1, and the run finishes, with
`some (some i)` a successful convergence at pass `i` and `some none` an
exhausted budget. -/
def owncloudMain (loginOk : Bool) (passes : Nat → PassResult) (maxCycles : Nat) :
    Option (Option Nat) :=
  if loginOk then some (owncloudLoop passes maxCycles 1) else none

/-- The end of the SharePoint run (download.py lines 96-108,
sharepoint_download.py lines 744-754): after traversal and one retry round,
when `get_failed_files` is empty the state is cleared; otherwise the
remaining failures are reported and the store kept.  The pass's download
count is in scope there (`download_stats`) but the decision does not consult
it.  Returns whether `clear_state` was invoked, and the final store. -/
def sharepointEpilogue (maxRetries : Nat) (s : DState) (_downloadedThisPass : Nat) :
    Bool × DState :=
  if get_failed_files maxRetries s = [] then (true, clear_state s) else (false, s)

/-! ## Lemmas about the retry store -/

theorem bumpRetries_eq_none (l : List Entry) (n p : String)
    (h : ∀ e ∈ l, ¬ (e.name = n ∧ e.path = p)) : bumpRetries l n p = none := by
  induction l with
  | nil => rfl
  | cons e rest ih =>
    have he : ¬ (e.name = n ∧ e.path = p) := h e (by simp)
    simp only [bumpRetries, if_neg he]
    rw [ih (fun e1 h1 => h e1 (by simp [h1]))]
    rfl

theorem bumpRetries_eq_some (l₁ : List Entry) (e : Entry) (l₂ : List Entry)
    (n p : String) (he1 : e.name = n) (he2 : e.path = p)
    (h : ∀ e1 ∈ l₁, ¬ (e1.name = n ∧ e1.path = p)) :
    bumpRetries (l₁ ++ e :: l₂) n p =
      some (l₁ ++ { e with retries := e.retries + 1 } :: l₂) := by
  induction l₁ with
  | nil => simp [bumpRetries, he1, he2]
  | cons e1 rest ih =>
    have hne : ¬ (e1.name = n ∧ e1.path = p) := h e1 (by simp)
    simp only [List.cons_append, bumpRetries, if_neg hne]
    rw [show rest.append (e :: l₂) = rest ++ e :: l₂ from rfl,
      ih (fun e2 h2 => h e2 (by simp [h2]))]
    rfl

/-- C4: `recordFailure` (`DownloadState.add_failed`) at identity `(n, p)`
increments the `retries` of the (first) existing matching entry in place,
inserting nothing, and otherwise appends a fresh entry with `retries = 1`;
in both cases the state file is rewritten immediately, so the disk holds
exactly the new in-memory list. -/
theorem add_failed_increments_or_inserts_and_writes_through
    (s : DState) (n p : String) :
    ((∀ e ∈ s.failed_files, ¬ (e.name = n ∧ e.path = p)) →
      add_failed true s n p =
        Except.ok ⟨s.failed_files ++ [⟨n, p, 1⟩], some (s.failed_files ++ [⟨n, p, 1⟩])⟩) ∧
    (∀ l₁ e l₂, s.failed_files = l₁ ++ e :: l₂ →
      e.name = n → e.path = p →
      (∀ e1 ∈ l₁, ¬ (e1.name = n ∧ e1.path = p)) →
      add_failed true s n p =
        Except.ok ⟨l₁ ++ { e with retries := e.retries + 1 } :: l₂,
          some (l₁ ++ { e with retries := e.retries + 1 } :: l₂)⟩) := by
  constructor
  · intro h
    simp [add_failed, bumpRetries_eq_none s.failed_files n p h, save_state]
  · intro l₁ e l₂ hs he1 he2 h1
    simp [add_failed, hs, bumpRetries_eq_some l₁ e l₂ n p he1 he2 h1, save_state]

/-- C5: `pendingRetries()` (`DownloadState.get_failed_files`) returns exactly
the recorded entries whose `retries` is strictly below the `maxRetries`
bound, in their stored order; entries at or above the bound are excluded
from the result yet each recorded entry stays in the store, which the pure
query does not mutate. -/
theorem get_failed_files_spec (maxRetries : Nat) (s : DState) :
    (∀ e, e ∈ get_failed_files maxRetries s ↔
      e ∈ s.failed_files ∧ e.retries < maxRetries) ∧
    (get_failed_files maxRetries s).Sublist s.failed_files ∧
    (∀ e ∈ s.failed_files, maxRetries ≤ e.retries →
      e ∉ get_failed_files maxRetries s ∧ e ∈ s.failed_files) := by
  refine ⟨fun e => ?_, List.filter_sublist s.failed_files, fun e he hge => ⟨?_, he⟩⟩
  · simp [get_failed_files]
  · simp only [get_failed_files, List.mem_filter, decide_eq_true_eq]
    intro hc
    exact absurd hc.2 (Nat.not_lt.mpr hge)

/-- C9: constructing the retry store (`DownloadState.load_state`) never
raises: an absent state file, and an unreadable or JSON-invalid one, both
leave the pending list empty (the parse error is caught and logged), while a
valid file yields exactly its recorded `failed_files` entries (an empty list
when the key is missing). -/
theorem load_state_total_and_faithful :
    load_state .absent = Except.ok [] ∧
    load_state .unreadable = Except.ok [] ∧
    (∀ l, load_state (.parsed (some l)) = Except.ok l) ∧
    load_state (.parsed none) = Except.ok [] ∧
    (∀ c, ∃ l, load_state c = Except.ok l) := by
  refine ⟨rfl, rfl, fun l => rfl, rfl, fun c => ?_⟩
  cases c with
  | absent => exact ⟨[], rfl⟩
  | unreadable => exact ⟨[], rfl⟩
  | parsed f => exact ⟨f.getD [], rfl⟩

/-- C10: `recordSuccess` (`DownloadState.mark_success`) removes every entry
matching `(n, p)` and keeps every non-matching entry with its count and
relative order; when nothing matches the list is unchanged, and the
operation is idempotent. -/
theorem mark_success_removes_matching_only (s : DState) (n p : String) :
    (∀ s1, mark_success true s n p = Except.ok s1 →
      (∀ e ∈ s1.failed_files, ¬ (e.name = n ∧ e.path = p)) ∧
      s1.failed_files.Sublist s.failed_files ∧
      (∀ e : Entry, ¬ (e.name = n ∧ e.path = p) →
        s1.failed_files.count e = s.failed_files.count e) ∧
      s1.disk = some s1.failed_files ∧
      mark_success true s1 n p = Except.ok s1) ∧
    ((∀ e ∈ s.failed_files, ¬ (e.name = n ∧ e.path = p)) →
      mark_success true s n p = Except.ok ⟨s.failed_files, some s.failed_files⟩) := by
  constructor
  · intro s1 h1
    have hs1 : s1 = ⟨s.failed_files.filter (fun f => ¬ (f.name = n ∧ f.path = p)),
        some (s.failed_files.filter (fun f => ¬ (f.name = n ∧ f.path = p)))⟩ := by
      simpa [mark_success, save_state] using h1.symm
    subst hs1
    refine ⟨?_, List.filter_sublist s.failed_files, ?_, rfl, ?_⟩
    · intro e he
      replace he : e ∈ s.failed_files.filter
          (fun f => ¬ (f.name = n ∧ f.path = p)) := he
      exact of_decide_eq_true (List.mem_filter.mp he).2
    · intro e hne
      exact List.count_filter (decide_eq_true hne)
    · simp [mark_success, save_state, List.filter_filter]
  · intro h
    have hf : s.failed_files.filter (fun f => ¬ (f.name = n ∧ f.path = p)) =
        s.failed_files := by
      rw [List.filter_eq_self]
      intro e he
      exact decide_eq_true (h e he)
    unfold mark_success
    rw [hf]
    rfl

/-! ## Traversal idempotence (claim C1) -/

theorem processFiles_all_present (dl : FPath → Bool) :
    ∀ (ns : List String) (fs : FPath → Bool) (st : DownStats) (path : FPath),
    (∀ n ∈ ns, fs (path ++ [n]) = true) →
    processFiles dl fs st path ns =
      (fs, ⟨st.total_files + ns.length, st.existing_files + ns.length,
            st.downloaded, st.failed⟩) := by
  intro ns
  induction ns with
  | nil => intro fs st path _; simp [processFiles]
  | cons n ns ih =>
    intro fs st path h
    have hn : fs (path ++ [n]) = true := h n (by simp)
    simp only [processFiles, hn, if_true]
    rw [ih fs _ path (fun m hm => h m (by simp [hm]))]
    refine congrArg (Prod.mk fs) ?_
    simp only [DownStats.mk.injEq, List.length_cons, and_true, true_and]
    omega

theorem processFiles_mono (dl : FPath → Bool) :
    ∀ (ns : List String) (fs : FPath → Bool) (st : DownStats) (path q : FPath),
    fs q = true → (processFiles dl fs st path ns).1 q = true := by
  intro ns
  induction ns with
  | nil => intro fs st path q hq; simpa [processFiles] using hq
  | cons n ns ih =>
    intro fs st path q hq
    cases hd : fs (path ++ [n]) with
    | true =>
      simp only [processFiles, hd, if_true]
      exact ih _ _ _ _ hq
    | false =>
      cases hdl : dl (path ++ [n]) with
      | true =>
        simp only [processFiles, hd, hdl, Bool.false_eq_true, if_false, if_true]
        exact ih _ _ _ _ (by simp [setFile, hq])
      | false =>
        simp only [processFiles, hd, hdl, Bool.false_eq_true, if_false]
        exact ih _ _ _ _ hq

theorem processFiles_failed_le (dl : FPath → Bool) :
    ∀ (ns : List String) (fs : FPath → Bool) (st : DownStats) (path : FPath),
    st.failed ≤ (processFiles dl fs st path ns).2.failed := by
  intro ns
  induction ns with
  | nil => intro fs st path; simp [processFiles]
  | cons n ns ih =>
    intro fs st path
    cases hd : fs (path ++ [n]) with
    | true =>
      simp only [processFiles, hd, if_true]
      simpa using ih fs
        ⟨st.total_files + 1, st.existing_files + 1, st.downloaded, st.failed⟩ path
    | false =>
      cases hdl : dl (path ++ [n]) with
      | true =>
        simp only [processFiles, hd, hdl, Bool.false_eq_true, if_false, if_true]
        simpa using ih (setFile fs (path ++ [n]))
          ⟨st.total_files + 1, st.existing_files, st.downloaded + 1, st.failed⟩ path
      | false =>
        simp only [processFiles, hd, hdl, Bool.false_eq_true, if_false]
        have hle := ih fs
          ⟨st.total_files + 1, st.existing_files, st.downloaded, st.failed + 1⟩ path
        simp only at hle
        omega

theorem processFiles_success (dl : FPath → Bool) :
    ∀ (ns : List String) (fs : FPath → Bool) (st : DownStats) (path : FPath),
    (processFiles dl fs st path ns).2.failed = st.failed →
    ∀ n ∈ ns, (processFiles dl fs st path ns).1 (path ++ [n]) = true := by
  intro ns
  induction ns with
  | nil => intro fs st path _ n hn; simp at hn
  | cons n ns ih =>
    intro fs st path hfail m hm
    cases hd : fs (path ++ [n]) with
    | true =>
      simp only [processFiles, hd, if_true] at hfail ⊢
      rcases List.mem_cons.mp hm with rfl | hm2
      · exact processFiles_mono dl ns fs _ path _ hd
      · exact ih _ _ _ hfail m hm2
    | false =>
      cases hdl : dl (path ++ [n]) with
      | true =>
        simp only [processFiles, hd, hdl, Bool.false_eq_true, if_false, if_true]
          at hfail ⊢
        rcases List.mem_cons.mp hm with rfl | hm2
        · exact processFiles_mono dl ns _ _ path _ (by simp [setFile])
        · exact ih _ _ _ hfail m hm2
      | false =>
        exfalso
        simp only [processFiles, hd, hdl, Bool.false_eq_true, if_false] at hfail
        have hle := processFiles_failed_le dl ns fs
          ⟨st.total_files + 1, st.existing_files, st.downloaded, st.failed + 1⟩ path
        rw [hfail] at hle
        simp only at hle
        omega

theorem scanSubdirs_mono (dl : FPath → Bool) :
    ∀ (acc : (FPath → Bool) × DownStats) (path : FPath) (l : List RTree)
      (q : FPath), acc.1 q = true → (scanSubdirs dl acc path l).1 q = true := by
  intro acc path l
  induction acc, path, l using scanSubdirs.induct dl with
  | case1 acc x => intro q hq; simpa [scanSubdirs] using hq
  | case2 acc path name rest ih =>
    intro q hq
    simpa only [scanSubdirs] using ih q hq
  | case3 fs st path n cs rest ih1 ih2 =>
    intro q hq
    simp only [scanSubdirs]
    exact ih2 q (ih1 q (processFiles_mono dl (fileNames cs) fs st (path ++ [n]) q hq))

theorem scanSubdirs_failed_le (dl : FPath → Bool) :
    ∀ (acc : (FPath → Bool) × DownStats) (path : FPath) (l : List RTree),
    acc.2.failed ≤ (scanSubdirs dl acc path l).2.failed := by
  intro acc path l
  induction acc, path, l using scanSubdirs.induct dl with
  | case1 acc x => simp [scanSubdirs]
  | case2 acc path name rest ih => simpa only [scanSubdirs] using ih
  | case3 fs st path n cs rest ih1 ih2 =>
    simp only [scanSubdirs]
    calc (fs, st).2.failed
        ≤ (processFiles dl fs st (path ++ [n]) (fileNames cs)).2.failed :=
          processFiles_failed_le dl (fileNames cs) fs st (path ++ [n])
      _ ≤ (scanSubdirs dl (processFiles dl fs st (path ++ [n]) (fileNames cs))
            (path ++ [n]) cs).2.failed := ih1
      _ ≤ _ := ih2

theorem scanSubdirs_all_present (dl : FPath → Bool) :
    ∀ (acc : (FPath → Bool) × DownStats) (path : FPath) (l : List RTree),
    (∀ q ∈ subtreeFilePaths path l, acc.1 q = true) →
    scanSubdirs dl acc path l =
      (acc.1, ⟨acc.2.total_files + (subtreeFilePaths path l).length,
               acc.2.existing_files + (subtreeFilePaths path l).length,
               acc.2.downloaded, acc.2.failed⟩) := by
  intro acc path l
  induction acc, path, l using scanSubdirs.induct dl with
  | case1 acc x =>
    intro _
    simp [scanSubdirs, subtreeFilePaths]
  | case2 acc path name rest ih =>
    intro h
    simp only [scanSubdirs, subtreeFilePaths]
    exact ih (by simpa only [subtreeFilePaths] using h)
  | case3 fs st path n cs rest ih1 ih2 =>
    intro h
    have hfiles : ∀ m ∈ fileNames cs, fs ((path ++ [n]) ++ [m]) = true := by
      intro m hm
      refine h ((path ++ [n]) ++ [m]) ?_
      simp only [subtreeFilePaths, List.mem_append, List.mem_map]
      exact Or.inl (Or.inl ⟨m, hm, rfl⟩)
    have hsub1 : ∀ q ∈ subtreeFilePaths (path ++ [n]) cs, fs q = true := by
      intro q hq
      refine h q ?_
      simp only [subtreeFilePaths, List.mem_append]
      exact Or.inl (Or.inr hq)
    have hrest : ∀ q ∈ subtreeFilePaths path rest, fs q = true := by
      intro q hq
      refine h q ?_
      simp only [subtreeFilePaths, List.mem_append]
      exact Or.inr hq
    have h1 := processFiles_all_present dl (fileNames cs) fs st (path ++ [n]) hfiles
    rw [h1] at ih1 ih2
    have h2 := ih1 hsub1
    rw [h2] at ih2
    have h3 := ih2 hrest
    simp only [scanSubdirs]
    rw [h1, h2, h3]
    refine Prod.ext rfl ?_
    simp only [subtreeFilePaths, DownStats.mk.injEq, List.length_append,
      List.length_map, and_true, true_and]
    omega

theorem scanSubdirs_success (dl : FPath → Bool) :
    ∀ (acc : (FPath → Bool) × DownStats) (path : FPath) (l : List RTree),
    (scanSubdirs dl acc path l).2.failed = acc.2.failed →
    ∀ q ∈ subtreeFilePaths path l, (scanSubdirs dl acc path l).1 q = true := by
  intro acc path l
  induction acc, path, l using scanSubdirs.induct dl with
  | case1 acc x =>
    intro _ q hq
    simp [subtreeFilePaths] at hq
  | case2 acc path name rest ih =>
    intro hfail q hq
    simp only [scanSubdirs] at hfail ⊢
    simp only [subtreeFilePaths] at hq
    exact ih hfail q hq
  | case3 fs st path n cs rest ih1 ih2 =>
    intro hfail q hq
    simp only [scanSubdirs] at hfail ⊢
    have e1 : st.failed ≤
        (processFiles dl fs st (path ++ [n]) (fileNames cs)).2.failed :=
      processFiles_failed_le dl (fileNames cs) fs st (path ++ [n])
    have e2 : (processFiles dl fs st (path ++ [n]) (fileNames cs)).2.failed ≤
        (scanSubdirs dl (processFiles dl fs st (path ++ [n]) (fileNames cs))
          (path ++ [n]) cs).2.failed := scanSubdirs_failed_le dl _ _ _
    have e3 : (scanSubdirs dl (processFiles dl fs st (path ++ [n]) (fileNames cs))
        (path ++ [n]) cs).2.failed ≤
        (scanSubdirs dl (scanSubdirs dl
          (processFiles dl fs st (path ++ [n]) (fileNames cs)) (path ++ [n]) cs)
          path rest).2.failed := scanSubdirs_failed_le dl _ _ _
    have hfail2 : (scanSubdirs dl (scanSubdirs dl
        (processFiles dl fs st (path ++ [n]) (fileNames cs)) (path ++ [n]) cs)
        path rest).2.failed = st.failed := hfail
    have hp : (processFiles dl fs st (path ++ [n]) (fileNames cs)).2.failed =
        st.failed := by omega
    have hs1 : (scanSubdirs dl (processFiles dl fs st (path ++ [n]) (fileNames cs))
        (path ++ [n]) cs).2.failed =
        (processFiles dl fs st (path ++ [n]) (fileNames cs)).2.failed := by omega
    simp only [subtreeFilePaths, List.mem_append, List.mem_map] at hq
    rcases hq with (⟨m, hm, rfl⟩ | hq1) | hq2
    · refine scanSubdirs_mono dl _ _ _ _ (scanSubdirs_mono dl _ _ _ _ ?_)
      exact processFiles_success dl (fileNames cs) fs st (path ++ [n]) hp m hm
    · exact scanSubdirs_mono dl _ _ _ _ (ih1 hs1 q hq1)
    · exact ih2 (by omega) q hq2

theorem scan_directory_all_present (dl : FPath → Bool) (fs : FPath → Bool)
    (st : DownStats) (cs : List RTree)
    (h : ∀ q ∈ treeFilePaths [] cs, fs q = true) :
    scan_directory dl fs st cs =
      (fs, ⟨st.total_files + (treeFilePaths [] cs).length,
            st.existing_files + (treeFilePaths [] cs).length,
            st.downloaded, st.failed⟩) := by
  have hfiles : ∀ m ∈ fileNames cs, fs (([] : FPath) ++ [m]) = true := by
    intro m hm
    refine h (([] : FPath) ++ [m]) ?_
    simp only [treeFilePaths, List.mem_append, List.mem_map]
    exact Or.inl ⟨m, hm, rfl⟩
  have hsub : ∀ q ∈ subtreeFilePaths [] cs, fs q = true := by
    intro q hq
    refine h q ?_
    simp only [treeFilePaths, List.mem_append]
    exact Or.inr hq
  have h1 := processFiles_all_present dl (fileNames cs) fs st [] hfiles
  have h2 := scanSubdirs_all_present dl
    (processFiles dl fs st [] (fileNames cs)) [] cs
  rw [h1] at h2
  unfold scan_directory
  rw [h1, h2 hsub]
  refine congrArg (Prod.mk fs) ?_
  simp only [treeFilePaths, DownStats.mk.injEq, List.length_append, List.length_map,
    and_true, true_and]
  omega

theorem scan_directory_success (dl : FPath → Bool) (fs : FPath → Bool)
    (st : DownStats) (cs : List RTree)
    (hfail : (scan_directory dl fs st cs).2.failed = st.failed) :
    ∀ q ∈ treeFilePaths [] cs, (scan_directory dl fs st cs).1 q = true := by
  intro q hq
  unfold scan_directory at hfail ⊢
  have e1 : st.failed ≤ (processFiles dl fs st [] (fileNames cs)).2.failed :=
    processFiles_failed_le dl (fileNames cs) fs st []
  have e2 : (processFiles dl fs st [] (fileNames cs)).2.failed ≤
      (scanSubdirs dl (processFiles dl fs st [] (fileNames cs)) [] cs).2.failed :=
    scanSubdirs_failed_le dl _ _ _
  have hp : (processFiles dl fs st [] (fileNames cs)).2.failed = st.failed := by
    omega
  simp only [treeFilePaths, List.mem_append, List.mem_map] at hq
  rcases hq with ⟨m, hm, rfl⟩ | hq1
  · exact scanSubdirs_mono dl _ _ _ _
      (processFiles_success dl (fileNames cs) fs st [] hp m hm)
  · exact scanSubdirs_success dl _ _ _ (by omega) q hq1

/-- C1: a traversal pass skips every file item whose resolved destination
already holds a regular file — it is counted as already present and the
recursion continues with no download triggered and the filesystem untouched
(final conjunct); hence after a first pass over the tree that fully
succeeded (no item failed), a second pass over the unchanged tree performs
zero new downloads: it returns the filesystem unchanged, leaves the
`downloaded` and `failed` counters of the second pass at their initial
values, and resolves every file of the tree via the already-present
counter. -/
theorem scan_directory_idempotent_after_success
    (dl dl2 : FPath → Bool) (fs : FPath → Bool) (st st2 : DownStats)
    (cs : List RTree)
    (h : (scan_directory dl fs st cs).2.failed = st.failed) :
    scan_directory dl2 (scan_directory dl fs st cs).1 st2 cs =
      ((scan_directory dl fs st cs).1,
        ⟨st2.total_files + (treeFilePaths [] cs).length,
         st2.existing_files + (treeFilePaths [] cs).length,
         st2.downloaded, st2.failed⟩) ∧
    (∀ (fs1 : FPath → Bool) (st1 : DownStats) (path : FPath) (n : String)
        (ns : List String), fs1 (path ++ [n]) = true →
      processFiles dl2 fs1 st1 path (n :: ns) =
        processFiles dl2 fs1
          { st1 with total_files := st1.total_files + 1,
                     existing_files := st1.existing_files + 1 } path ns) := by
  constructor
  · exact scan_directory_all_present dl2 (scan_directory dl fs st cs).1 st2 cs
      (scan_directory_success dl fs st cs h)
  · intro fs1 st1 path n ns hn
    simp only [processFiles, hn, if_true]

/-- Witness for C1: a first pass with an always-succeeding download over the
tree `[a, d/[b]]` starting from an empty mirror ends with no failures, and
the theorem then gives the idempotent second pass. -/
theorem scan_directory_idempotent_witness :
    ((scan_directory (fun _ => true) (fun _ => false) ⟨0, 0, 0, 0⟩
        [RTree.file "a", RTree.dir "d" [RTree.file "b"]]).2.failed =
      (⟨0, 0, 0, 0⟩ : DownStats).failed) ∧
    (scan_directory (fun _ => true)
        (scan_directory (fun _ => true) (fun _ => false) ⟨0, 0, 0, 0⟩
          [RTree.file "a", RTree.dir "d" [RTree.file "b"]]).1 ⟨0, 0, 0, 0⟩
        [RTree.file "a", RTree.dir "d" [RTree.file "b"]] =
      ((scan_directory (fun _ => true) (fun _ => false) ⟨0, 0, 0, 0⟩
          [RTree.file "a", RTree.dir "d" [RTree.file "b"]]).1,
        ⟨(⟨0, 0, 0, 0⟩ : DownStats).total_files +
          (treeFilePaths [] [RTree.file "a", RTree.dir "d" [RTree.file "b"]]).length,
         (⟨0, 0, 0, 0⟩ : DownStats).existing_files +
          (treeFilePaths [] [RTree.file "a", RTree.dir "d" [RTree.file "b"]]).length,
         (⟨0, 0, 0, 0⟩ : DownStats).downloaded,
         (⟨0, 0, 0, 0⟩ : DownStats).failed⟩) ∧
    (∀ (fs1 : FPath → Bool) (st1 : DownStats) (path : FPath) (n : String)
        (ns : List String), fs1 (path ++ [n]) = true →
      processFiles (fun _ => true) fs1 st1 path (n :: ns) =
        processFiles (fun _ => true) fs1
          { st1 with total_files := st1.total_files + 1,
                     existing_files := st1.existing_files + 1 } path ns)) :=
  ⟨by simp [scan_directory, scanSubdirs, processFiles, fileNames, setFile],
    scan_directory_idempotent_after_success (fun _ => true) (fun _ => true)
      (fun _ => false) ⟨0, 0, 0, 0⟩ ⟨0, 0, 0, 0⟩
      [RTree.file "a", RTree.dir "d" [RTree.file "b"]]
      (by simp [scan_directory, scanSubdirs, processFiles, fileNames, setFile])⟩

/-! ## Retry counting (claim C3) -/

theorem attemptLoop_fst_le (dl : Nat → Bool) :
    ∀ fuel i, (attemptLoop dl fuel i).1 ≤ fuel := by
  intro fuel
  induction fuel with
  | zero => intro i; simp [attemptLoop]
  | succ m ih =>
    intro i
    by_cases h : dl i
    · simp [attemptLoop, h]
    · simp only [attemptLoop, if_neg h]
      exact Nat.succ_le_succ (ih (i + 1))

/-- C3 counterexample: with `maxRetries = 10` and a download that always
fails, a single cycle of `main` already attempts the missing item 20 times
(`download_and_monitor_with_retry` in the scan phase and `retry_download` in
the retry phase each exhaust the 10-attempt budget), exceeding the claimed
lifetime bound of `maxRetries` attempts. -/
theorem single_cycle_attempts_exceed_max_retries :
    cycleAttemptsForItem false (fun _ => false) (fun _ => false) 10 = 20 ∧
    ¬ (20 ≤ 10) := by decide

/-- C3 amended: each single invocation of the per-item retry wrapper makes at
most `maxRetries` attempts, and one full cycle of `main` attempts one item at
most `2 * maxRetries` times (scan phase plus retry phase) — the per-cycle
bound is `2 * maxRetries`, not `maxRetries` over the store's lifetime; the
store's own query offers an item for automatic retry only while its recorded
`retries` is below the bound. -/
theorem cycle_attempts_bounded (present : Bool) (dl1 dl2 : Nat → Bool)
    (maxRetries : Nat) :
    (download_and_monitor_with_retry dl1 maxRetries).1 ≤ maxRetries ∧
    cycleAttemptsForItem present dl1 dl2 maxRetries ≤ 2 * maxRetries ∧
    (∀ s : DState, ∀ e ∈ get_failed_files maxRetries s, e.retries < maxRetries) := by
  refine ⟨attemptLoop_fst_le dl1 maxRetries 0, ?_, ?_⟩
  · unfold cycleAttemptsForItem
    by_cases hp : present
    · simp [hp]
    · simp only [hp, if_false, Bool.false_eq_true]
      by_cases hr : (download_and_monitor_with_retry dl1 maxRetries).2
      · simp only [hr, if_true]
        calc (download_and_monitor_with_retry dl1 maxRetries).1
            ≤ maxRetries := attemptLoop_fst_le dl1 maxRetries 0
          _ ≤ 2 * maxRetries := by omega
      · simp only [hr, Bool.false_eq_true, if_false]
        have h1 := attemptLoop_fst_le dl1 maxRetries 0
        have h2 := attemptLoop_fst_le dl2 maxRetries 0
        unfold download_and_monitor_with_retry
        omega
  · intro s e he
    have := (get_failed_files_spec maxRetries s).1 e |>.mp he
    exact this.2

/-! ## Destination resolution never overwrites a different-sized file -/

theorem splitLastDot_append : ∀ (cs b a : List Char),
    splitLastDot cs = some (b, a) → b ++ a = cs := by
  intro cs
  induction cs with
  | nil => intro b a h; simp [splitLastDot] at h
  | cons c rest ih =>
    intro b a h
    cases hs : splitLastDot rest with
    | none =>
      by_cases hc : c = '.'
      · simp only [splitLastDot, hs, if_pos hc, Option.some.injEq, Prod.mk.injEq] at h
        rw [← h.1, ← h.2]
        rfl
      · simp [splitLastDot, hs, hc] at h
    | some ba =>
      obtain ⟨b1, a1⟩ := ba
      simp only [splitLastDot, hs, Option.some.injEq, Prod.mk.injEq] at h
      rw [← h.1, ← h.2]
      have hr := ih b1 a1 hs
      rw [List.cons_append, hr]

theorem splitext_length (s : String) :
    (splitext s).1.length + (splitext s).2.length = s.length := by
  cases hs : splitLastDot s.data with
  | none => simp [splitext, hs]
  | some ba =>
    obtain ⟨b, a⟩ := ba
    cases hany : b.any (fun c => c ≠ '.') with
    | false =>
      have hsp : splitext s = (s, "") := by
        simp only [splitext, hs]
        rw [if_neg (by rw [hany]; simp)]
      rw [hsp]
      simp
    | true =>
      have hsp : splitext s = (String.mk b, String.mk a) := by
        simp only [splitext, hs]
        rw [if_pos hany]
      rw [hsp]
      show b.length + a.length = s.data.length
      rw [← splitLastDot_append s.data b a hs, List.length_append]

theorem timestamped_name_ne (filename : String) (ts : Nat) :
    (splitext filename).1 ++ "_" ++ toString ts ++ (splitext filename).2 ≠ filename := by
  intro h
  have hlen := congrArg String.length h
  simp only [String.length_append] at hlen
  have h2 := splitext_length filename
  have h3 : String.length "_" = 1 := rfl
  omega

theorem dropLast_two_append_singleton (l1 l2 : List String) (x : String) :
    (l1 ++ l2 ++ [x]).dropLast = l1 ++ l2 := by
  simp

/-- C2: relocating a downloaded artifact when a file of the desired name is
already at the destination with a different size moves the artifact to the
timestamp-disambiguated name instead, so the pre-existing destination file
keeps its path and content size while the artifact lands under a distinct
name; with equal sizes the source artifact is deleted and the destination
file kept. -/
theorem move_file_collision_safe
    (fs : FPath → Option Nat) (source_path : FPath) (filename : String)
    (target_dir : FPath) (ts : Nat) (srcSize destSize : Nat)
    (hsrc : fs source_path = some srcSize)
    (hdest : fs (DOWNLOAD_DIR ++ target_dir ++ [filename]) = some destSize)
    (hne : source_path ≠ DOWNLOAD_DIR ++ target_dir ++ [filename]) :
    (move_file_to_directory fs source_path filename target_dir ts).2 = true ∧
    (srcSize ≠ destSize →
      DOWNLOAD_DIR ++ target_dir ++
          [(splitext filename).1 ++ "_" ++ toString ts ++ (splitext filename).2] ≠
        DOWNLOAD_DIR ++ target_dir ++ [filename] ∧
      (move_file_to_directory fs source_path filename target_dir ts).1
          (DOWNLOAD_DIR ++ target_dir ++ [filename]) = some destSize ∧
      (move_file_to_directory fs source_path filename target_dir ts).1
          (DOWNLOAD_DIR ++ target_dir ++
            [(splitext filename).1 ++ "_" ++ toString ts ++ (splitext filename).2]) =
        some srcSize) ∧
    (srcSize = destSize →
      (move_file_to_directory fs source_path filename target_dir ts).1
          (DOWNLOAD_DIR ++ target_dir ++ [filename]) = some destSize ∧
      (move_file_to_directory fs source_path filename target_dir ts).1 source_path =
        none) := by
  have hpathne : DOWNLOAD_DIR ++ target_dir ++
      [(splitext filename).1 ++ "_" ++ toString ts ++ (splitext filename).2] ≠
      DOWNLOAD_DIR ++ target_dir ++ [filename] := by
    intro h
    have h2 := List.append_cancel_left h
    exact timestamped_name_ne filename ts (by simpa using h2)
  by_cases hsz : srcSize = destSize
  · refine ⟨?_, fun hc => absurd hsz hc, fun _ => ⟨?_, ?_⟩⟩
    · simp only [move_file_to_directory, hdest, hsrc]
      rw [if_pos hsz]
    · simp only [move_file_to_directory, hdest, hsrc]
      rw [if_pos hsz]
      show fsRemove fs source_path (DOWNLOAD_DIR ++ target_dir ++ [filename]) =
        some destSize
      simp only [fsRemove]
      rw [if_neg (Ne.symm hne)]
      exact hdest
    · simp only [move_file_to_directory, hdest, hsrc]
      rw [if_pos hsz]
      show fsRemove fs source_path source_path = none
      simp [fsRemove]
  · refine ⟨?_, fun _ => ⟨hpathne, ?_, ?_⟩, fun hc => absurd hc hsz⟩
    · simp only [move_file_to_directory, hdest, hsrc]
      rw [if_neg hsz]
    · simp only [move_file_to_directory, hdest, hsrc]
      rw [if_neg hsz]
      simp only [fsRename, dropLast_two_append_singleton]
      rw [if_neg (Ne.symm hpathne), if_neg (Ne.symm hne)]
      exact hdest
    · simp only [move_file_to_directory, hdest, hsrc]
      rw [if_neg hsz]
      simp only [fsRename, dropLast_two_append_singleton]
      simpa using hsrc

/-- Witness for C2: a concrete collision (the destination holds `f.txt` of
size 5, the artifact of size 7 sits in the landing area) is resolved to
`f_99.txt` with both files retrievable, and the equal-size conclusion is
vacuously instantiated. -/
theorem move_file_collision_safe_witness :
    ((fun p : FPath => if p = ["downloads", "A", "f.txt"] then some 5
        else if p = ["downloads", "tmpfile"] then some 7 else none)
      ["downloads", "tmpfile"] = some 7) ∧
    ((fun p : FPath => if p = ["downloads", "A", "f.txt"] then some 5
        else if p = ["downloads", "tmpfile"] then some 7 else none)
      (DOWNLOAD_DIR ++ ["A"] ++ ["f.txt"]) = some 5) ∧
    (["downloads", "tmpfile"] ≠ DOWNLOAD_DIR ++ ["A"] ++ ["f.txt"]) ∧
    ((move_file_to_directory
        (fun p : FPath => if p = ["downloads", "A", "f.txt"] then some 5
          else if p = ["downloads", "tmpfile"] then some 7 else none)
        ["downloads", "tmpfile"] "f.txt" ["A"] 99).2 = true ∧
      ((7 : Nat) ≠ 5 →
        DOWNLOAD_DIR ++ ["A"] ++
            [(splitext "f.txt").1 ++ "_" ++ toString 99 ++ (splitext "f.txt").2] ≠
          DOWNLOAD_DIR ++ ["A"] ++ ["f.txt"] ∧
        (move_file_to_directory
            (fun p : FPath => if p = ["downloads", "A", "f.txt"] then some 5
              else if p = ["downloads", "tmpfile"] then some 7 else none)
            ["downloads", "tmpfile"] "f.txt" ["A"] 99).1
            (DOWNLOAD_DIR ++ ["A"] ++ ["f.txt"]) = some 5 ∧
        (move_file_to_directory
            (fun p : FPath => if p = ["downloads", "A", "f.txt"] then some 5
              else if p = ["downloads", "tmpfile"] then some 7 else none)
            ["downloads", "tmpfile"] "f.txt" ["A"] 99).1
            (DOWNLOAD_DIR ++ ["A"] ++
              [(splitext "f.txt").1 ++ "_" ++ toString 99 ++ (splitext "f.txt").2]) =
          some 7) ∧
      ((7 : Nat) = 5 →
        (move_file_to_directory
            (fun p : FPath => if p = ["downloads", "A", "f.txt"] then some 5
              else if p = ["downloads", "tmpfile"] then some 7 else none)
            ["downloads", "tmpfile"] "f.txt" ["A"] 99).1
            (DOWNLOAD_DIR ++ ["A"] ++ ["f.txt"]) = some 5 ∧
        (move_file_to_directory
            (fun p : FPath => if p = ["downloads", "A", "f.txt"] then some 5
              else if p = ["downloads", "tmpfile"] then some 7 else none)
            ["downloads", "tmpfile"] "f.txt" ["A"] 99).1 ["downloads", "tmpfile"] =
          none)) :=
  ⟨by decide, by decide, by decide,
    move_file_collision_safe
      (fun p : FPath => if p = ["downloads", "A", "f.txt"] then some 5
        else if p = ["downloads", "tmpfile"] then some 7 else none)
      ["downloads", "tmpfile"] "f.txt" ["A"] 99 7 5
      (by decide) (by decide) (by decide)⟩

/-! ## The completion monitor declares stability only after a quiet streak -/

theorem monitor_run_finalize_pattern :
    ∀ (obs : List (Nat × Nat)) (st : MonState), monitor_run st obs = true →
      (∃ pre post v a b, obs = pre ++ [(v, a), (v, b), (v, v)] ++ post) ∨
      (2 ≤ st.stable_count ∧
        ∃ post, obs = (st.last_size, st.last_size) :: post) ∨
      (1 ≤ st.stable_count ∧
        ∃ a post, obs = (st.last_size, a) :: (st.last_size, st.last_size) :: post) := by
  intro obs
  induction obs with
  | nil => intro st h; simp [monitor_run] at h
  | cons pr rest ih =>
    obtain ⟨p, r⟩ := pr
    intro st h
    by_cases hp : p = st.last_size
    · by_cases hc : st.stable_count + 1 ≥ 3
      · by_cases hr : r = p
        · right; left
          exact ⟨by omega, rest, by rw [hp, hr, hp]⟩
        · rw [hp] at hr
          have h1 : monitor_run ⟨st.last_size, st.stable_count + 1⟩ rest = true := by
            simpa [monitor_run, monitor_step, hp, hc, hr] using h
          rcases ih ⟨st.last_size, st.stable_count + 1⟩ h1 with h0 | h2 | h3
          · obtain ⟨pre, post, v, a, b, hrest⟩ := h0
            exact Or.inl ⟨(p, r) :: pre, post, v, a, b, by rw [hrest]; rfl⟩
          · obtain ⟨_, post, hrest⟩ := h2
            refine Or.inr (Or.inr ⟨by omega, r, post, ?_⟩)
            rw [hrest, hp]
          · obtain ⟨_, a, post, hrest⟩ := h3
            refine Or.inl ⟨[], post, st.last_size, r, a, ?_⟩
            rw [hrest, hp]
            rfl
      · have h1 : monitor_run ⟨st.last_size, st.stable_count + 1⟩ rest = true := by
          simpa [monitor_run, monitor_step, hp, hc] using h
        rcases ih ⟨st.last_size, st.stable_count + 1⟩ h1 with h0 | h2 | h3
        · obtain ⟨pre, post, v, a, b, hrest⟩ := h0
          exact Or.inl ⟨(p, r) :: pre, post, v, a, b, by rw [hrest]; rfl⟩
        · obtain ⟨hsc, post, hrest⟩ := h2
          refine Or.inr (Or.inr ⟨by simpa using hsc, r, post, ?_⟩)
          rw [hrest, hp]
        · obtain ⟨_, a, post, hrest⟩ := h3
          refine Or.inl ⟨[], post, st.last_size, r, a, ?_⟩
          rw [hrest, hp]
          rfl
    · have h1 : monitor_run ⟨p, 0⟩ rest = true := by
        simpa [monitor_run, monitor_step, hp] using h
      rcases ih ⟨p, 0⟩ h1 with h0 | h2 | h3
      · obtain ⟨pre, post, v, a, b, hrest⟩ := h0
        exact Or.inl ⟨(p, r) :: pre, post, v, a, b, by rw [hrest]; rfl⟩
      · exact absurd h2.1 (by norm_num)
      · exact absurd h3.1 (by norm_num)

/-- C6: the completion monitor, started with `last_size = 0` and
`stable_count = 0`, declares the in-progress artifact stable (and proceeds
to strip the suffix and relocate) only after three consecutive polls
returned the same size and the extra confirmation re-read returned that size
once more: any finalizing observation script contains three consecutive
polls of one value `v` whose last iteration's re-check is again `v`; and any
poll that observes a changed size resets the unchanged-sample counter to
zero. -/
theorem monitor_stability_needs_three_quiet_polls_and_confirmation
    (obs : List (Nat × Nat)) (h : monitor_run ⟨0, 0⟩ obs = true) :
    (∃ pre post v a b, obs = pre ++ [(v, a), (v, b), (v, v)] ++ post) ∧
    (∀ (st : MonState) (p r : Nat), p ≠ st.last_size →
      monitor_step st p r = some ⟨p, 0⟩) := by
  constructor
  · rcases monitor_run_finalize_pattern obs ⟨0, 0⟩ h with h0 | h1 | h2
    · exact h0
    · exact absurd h1.1 (by norm_num)
    · exact absurd h2.1 (by norm_num)
  · intro st p r hne
    simp [monitor_step, hne]

/-- Witness for C6: the script that polls size 5 four times (resetting the
zero-initialised `last_size` on the first poll) and confirms 5 on the
re-check does finalize, and the theorem exhibits the quiet streak in it. -/
theorem monitor_stability_witness :
    monitor_run ⟨0, 0⟩ [(5, 0), (5, 0), (5, 0), (5, 5)] = true ∧
    ((∃ pre post v a b,
        [(5, 0), (5, 0), (5, 0), (5, 5)] = pre ++ [(v, a), (v, b), (v, v)] ++ post) ∧
      (∀ (st : MonState) (p r : Nat), p ≠ st.last_size →
        monitor_step st p r = some ⟨p, 0⟩)) :=
  ⟨by decide, monitor_stability_needs_three_quiet_polls_and_confirmation _ (by decide)⟩

/-! ## Error propagation (claim C7) and run convergence (claim C8) -/

/-- C7 counterexample: an I/O failure while writing the retry-state file is
not fatal — `save_state` catches the exception, keeps the store as it was,
and returns normally instead of aborting the run. -/
theorem save_state_failure_returns_normally :
    save_state false ⟨[], none⟩ = Except.ok ⟨[], none⟩ ∧
    (∀ e : Unit, save_state false ⟨[], none⟩ ≠ Except.error e) := by
  refine ⟨rfl, fun e h => ?_⟩
  simp [save_state] at h

/-- C7 amended: an I/O failure while writing the persistent retry-state file
is caught and logged, never propagates, and leaves both the in-memory list
and the on-disk file as they were — the run continues; only
session-establishment failure aborts the run (main returns immediately when
login fails). -/
theorem save_failure_nonfatal_login_failure_fatal (s : DState) :
    save_state false s = Except.ok s ∧
    (∀ writeOk, ∃ s1, save_state writeOk s = Except.ok s1) ∧
    (∀ passes maxCycles, owncloudMain false passes maxCycles = none) := by
  refine ⟨rfl, fun writeOk => ?_, fun passes maxCycles => rfl⟩
  cases writeOk with
  | false => exact ⟨s, rfl⟩
  | true => exact ⟨{ s with disk := some s.failed_files }, rfl⟩

/-- C8 counterexample: the end of the SharePoint run clears the retry store
whenever `get_failed_files` is empty, even in a pass that downloaded a new
file — refuting that `clear()` is invoked only when the pass also downloaded
zero new files. -/
theorem epilogue_clears_despite_new_downloads :
    (sharepointEpilogue 10 ⟨[], some []⟩ 1).1 = true ∧ ¬ ((1 : Nat) = 0) := by decide

/-- C8 amended: the ownCloud cycle loop terminates successfully exactly when
some pass within the cycle budget ends with an empty failure list and zero
new downloads; the SharePoint epilogue invokes `clear()` exactly when the
pending-retries list is empty at the end of the run — regardless of how many
files that pass downloaded — and clearing empties the list and deletes the
state file. -/
theorem convergence_loop_and_epilogue_clear :
    (∀ passes fuel i n, owncloudLoop passes fuel i = some n →
      i ≤ n ∧ n < i + fuel ∧
      (passes n).failedAfterRetry = 0 ∧ (passes n).downloaded = 0) ∧
    (∀ passes fuel i,
      (∃ j, i ≤ j ∧ j < i + fuel ∧
        (passes j).failedAfterRetry = 0 ∧ (passes j).downloaded = 0) →
      (owncloudLoop passes fuel i).isSome = true) ∧
    (∀ m s d, (sharepointEpilogue m s d).1 = true ↔ get_failed_files m s = []) ∧
    (∀ m s d, (sharepointEpilogue m s d).1 = true →
      (sharepointEpilogue m s d).2 = ⟨[], none⟩) := by
  refine ⟨?_, ?_, ?_, ?_⟩
  · intro passes fuel
    induction fuel with
    | zero => intro i n h; simp [owncloudLoop] at h
    | succ m ih =>
      intro i n h
      by_cases hc : (passes i).failedAfterRetry = 0 ∧ (passes i).downloaded = 0
      · simp only [owncloudLoop, if_pos hc] at h
        cases h
        exact ⟨Nat.le_refl i, by omega, hc.1, hc.2⟩
      · simp only [owncloudLoop, if_neg hc] at h
        have := ih (i + 1) n h
        exact ⟨by omega, by omega, this.2.2.1, this.2.2.2⟩
  · intro passes fuel
    induction fuel with
    | zero =>
      intro i h
      obtain ⟨j, h1, h2, _⟩ := h
      omega
    | succ m ih =>
      intro i h
      by_cases hc : (passes i).failedAfterRetry = 0 ∧ (passes i).downloaded = 0
      · simp [owncloudLoop, hc]
      · simp only [owncloudLoop, if_neg hc]
        obtain ⟨j, h1, h2, h3, h4⟩ := h
        refine ih (i + 1) ⟨j, ?_, by omega, h3, h4⟩
        rcases Nat.eq_or_lt_of_le h1 with h5 | h5
        · exact absurd ⟨h5 ▸ h3, h5 ▸ h4⟩ hc
        · omega
  · intro m s d
    unfold sharepointEpilogue
    by_cases h : get_failed_files m s = [] <;> simp [h]
  · intro m s d h
    unfold sharepointEpilogue at h ⊢
    by_cases hc : get_failed_files m s = []
    · simp [hc, clear_state]
    · simp [hc] at h

end OwncloudMirror
